import Mathlib

/-
A shallow embedding of the equation-state engine of the swiping-equations
puzzle (src/src/App.jsx): the level generator, the status-derivation
effect that runs after every mutation of the term list, and the
drag-end / merge-submit / division-submit handlers.

Modelling conventions.  React state updates are modelled as pure
functions from the pre-state to the post-state.  The Math.random draws of
the generator and the UI-resolved overlap geometry are explicit
parameters.  JS numbers holding integer game values are modelled as Int.
The random string produced by generateId is modelled as a Nat id supplied
by the caller (the generator numbers its terms consecutively).  The
difficulty scalar (1 + floor(solvedCount / 3) * 0.2 in the source) is
carried in tenths as an integer d10, so difficulty = d10 / 10 exactly;
the reachable values 1.0, 1.2, 1.4, 1.6, ... are all exact in this
representation, and the two comparisons the source makes (difficulty >
1.2 and difficulty > 1.4) become d10 > 12 and d10 > 14, which agree with
the IEEE-754 comparisons of the source at every reachable difficulty.
A form field that went through parseInt is modelled as Option Int, none
standing for NaN (non-numeric input).
-/

namespace SwipeEq

/-- Which side of the equals sign a term card sits on (type Side in App.jsx). -/
inductive Side where
  | lhs
  | rhs
  deriving DecidableEq, Repr

/-- One addend of the equation (interface Term in App.jsx). -/
structure Term where
  id : Nat
  coefficient : Int
  hasVariable : Bool
  side : Side
  deriving DecidableEq, Repr

/-- A raw term of generateLevel before ids are assigned (the rawTerms
entries of App.jsx). -/
structure RawTerm where
  coeff : Int
  hasVar : Bool
  side : Side
  deriving DecidableEq, Repr

/-- JS Math.round(x) is floor(x + 1/2).  Applied to the exact rational
n / 10 this is the floor division of 2 * n + 10 by 20. -/
def jround10 (n : Int) : Int := Int.fdiv (2 * n + 10) 20

/-- scale(val) = Math.round(val * difficulty) from generateLevel, with
difficulty carried in tenths (difficulty = d10 / 10). -/
def scale (d10 val : Int) : Int := jround10 (val * d10)

/-- The outcomes of the Math.random draws made by one call of
generateLevel: the finalCoeff option, the target answer, A, C1, and one
keep-or-split flag per raw term (true models Math.random() > 0.5,
keeping the term unsplit). -/
structure Draws where
  finalCoeff : Int
  answer : Int
  A : Int
  C1 : Int
  keepFlags : List Bool
  deriving DecidableEq, Repr

/-- The options array for finalCoeff in generateLevel. -/
def optionsList : List Int := [2, 3, 4, 5, -2, -3, -4, -5]

/-- The ranges the Math.random draws of generateLevel are taken from:
finalCoeff is 1 unless difficulty > 1.2, in which case it comes from the
options array; answer is uniform on [-scale 5, scale 5]; A is uniform on
[minA, max (minA + 2) (scale 6)] with minA = 2; C1 is uniform on
[-scale 10, scale 10]. -/
def validDraws (d10 : Int) (d : Draws) : Prop :=
  ((d10 > 12 ∧ d.finalCoeff ∈ optionsList) ∨ (¬ d10 > 12 ∧ d.finalCoeff = 1))
  ∧ -(scale d10 5) ≤ d.answer ∧ d.answer ≤ scale d10 5
  ∧ 2 ≤ d.A ∧ d.A ≤ max 4 (scale d10 6)
  ∧ -(scale d10 10) ≤ d.C1 ∧ d.C1 ≤ scale d10 10

instance (d10 : Int) (d : Draws) : Decidable (validDraws d10 d) := by
  unfold validDraws
  infer_instance

/-- One step of the term-splitting pass of generateLevel: a raw term is
kept whole when its flag says keep or its coefficient is 0, otherwise it
is replaced by floor(c / 2) and c - floor(c / 2) on the same side and
kind.  JS Math.floor(c / 2) on an integer c is floor division. -/
def splitOne (keep : Bool) (t : RawTerm) : List RawTerm :=
  if keep || t.coeff == 0 then [t]
  else
    let splitPart := Int.fdiv t.coeff 2
    let remainder := t.coeff - splitPart
    [⟨splitPart, t.hasVar, t.side⟩, ⟨remainder, t.hasVar, t.side⟩]

/-- The forEach of the splitting pass, consuming one flag per raw term
(a missing flag defaults to keep). -/
def splitAll : List Bool → List RawTerm → List RawTerm
  | _, [] => []
  | flags, t :: rest => splitOne (flags.headD true) t ++ splitAll flags.tail rest

/-- The final conversion of surviving raw terms to Term objects; the
source calls generateId() for each, modelled as consecutive Nat ids. -/
def assignIds : Nat → List RawTerm → List Term
  | _, [] => []
  | n, t :: rest => ⟨n, t.coeff, t.hasVar, t.side⟩ :: assignIds (n + 1) rest

/-- generateLevel from App.jsx.  B = A - finalCoeff and
C2 = C1 + finalCoeff * answer are computed, the four raw terms are laid
out, split when difficulty > 1.4, and zero-coefficient raw terms are
dropped before ids are assigned. -/
def generateLevel (d10 : Int) (d : Draws) : List Term :=
  let B := d.A - d.finalCoeff
  let targetConstantDiff := d.finalCoeff * d.answer
  let C2 := d.C1 + targetConstantDiff
  let rawTerms : List RawTerm :=
    [⟨d.A, true, Side.lhs⟩, ⟨B, true, Side.rhs⟩,
     ⟨d.C1, false, Side.lhs⟩, ⟨C2, false, Side.rhs⟩]
  let rawTerms2 := if d10 > 14 then splitAll d.keepFlags rawTerms else rawTerms
  assignIds 0 (rawTerms2.filter fun t => t.coeff != 0)

/-- The value a term contributes to its side at a given value of x. -/
def termValue (t : Term) (x : Int) : Int :=
  if t.hasVariable then t.coefficient * x else t.coefficient

/-- The sum of one side of the equation evaluated at x. -/
def sideSum (terms : List Term) (s : Side) (x : Int) : Int :=
  ((terms.filter fun t => t.side == s).map fun t => termValue t x).sum

/-- The value a raw term contributes at a given value of x. -/
def rawValue (t : RawTerm) (x : Int) : Int :=
  if t.hasVar then t.coeff * x else t.coeff

/-- The sum of one side of a raw-term list evaluated at x. -/
def rawSideSum (l : List RawTerm) (s : Side) (x : Int) : Int :=
  ((l.filter fun t => t.side == s).map fun t => rawValue t x).sum

/-- No live term has coefficient 0. -/
def noZero (terms : List Term) : Prop := ∀ t ∈ terms, t.coefficient ≠ 0

instance (terms : List Term) : Decidable (noZero terms) := by
  unfold noZero
  infer_instance

/-- The pieces of React state the status-derivation effect reads and
writes: gameWon, score, solvedCount and canDivide (the pending
division-ready payload, divisor and dividend). -/
structure GameView where
  gameWon : Bool
  score : Int
  solvedCount : Nat
  canDivide : Option (Int × Int)
  deriving DecidableEq, Repr

/-- The status-derivation useEffect of App.jsx, run after every change of
terms.  If the game is already won it clears canDivide; with exactly two
terms, one per side, one variable and one constant, it either enters the
won state (variable coefficient 1: score + 10, solvedCount + 1) or
records the division-ready payload; with a term count other than 2 it
clears canDivide.  With exactly two terms in any other arrangement the
effect changes nothing. -/
def statusEffect (terms : List Term) (g : GameView) : GameView :=
  if g.gameWon then { g with canDivide := none }
  else if terms.length = 2 then
    match terms.filter (fun t => t.side == Side.lhs),
          terms.filter (fun t => t.side == Side.rhs) with
    | [t1], [t2] =>
      if t1.hasVariable && !t2.hasVariable then
        if t1.coefficient = 1 then ⟨true, g.score + 10, g.solvedCount + 1, none⟩
        else { g with canDivide := some (t1.coefficient, t2.coefficient) }
      else if !t1.hasVariable && t2.hasVariable then
        if t2.coefficient = 1 then ⟨true, g.score + 10, g.solvedCount + 1, none⟩
        else { g with canDivide := some (t2.coefficient, t1.coefficient) }
      else g
    | _, _ => g
  else { g with canDivide := none }

/-- The two-term winning / division shape used by the spec: exactly one
term on each side, one with the variable and one constant.  Returns the
pair (variable coefficient, constant coefficient) when the shape holds.
Stated from the words of the spec for comparison with statusEffect. -/
def shapeOf (terms : List Term) : Option (Int × Int) :=
  match terms.filter (fun t => t.side == Side.lhs),
        terms.filter (fun t => t.side == Side.rhs) with
  | [t1], [t2] =>
    if t1.hasVariable && !t2.hasVariable then some (t1.coefficient, t2.coefficient)
    else if !t1.hasVariable && t2.hasVariable then some (t2.coefficient, t1.coefficient)
    else none
  | _, _ => none

/-- The snapshot pair stored in the merge modal by handleDragEnd: termA
is the dragged card with its effective coefficient and resolved side,
termB the overlapping card. -/
structure MergeModal where
  termA : Term
  termB : Term
  deriving DecidableEq, Repr

/-- The outcome of a drag-end event: the (possibly crossed) term list,
the score, and the merge negotiation opened, if any. -/
structure DragResult where
  terms : List Term
  score : Int
  modal : Option MergeModal
  deriving DecidableEq, Repr

/-- An overlap oracle reporting no geometric overlap for any card. -/
def noOverlap : Term → Bool := fun _ => false

/-- handleDragEnd from App.jsx.  The pixel geometry is external: newSide
is the resolved destination side and overlapOracle the geometric
more-than-30-percent overlap test.  The candidate search keeps the
source guards (different id, destination side, same hasVariable).  An
overlap opens the merge modal with the snapshot termA carrying the
effective (crossed) coefficient; otherwise a side change flips the sign
of the dragged term in place. -/
def handleDragEnd (terms : List Term) (score : Int) (gameWon : Bool)
    (term : Term) (newSide : Side) (overlapOracle : Term → Bool) : DragResult :=
  if gameWon then ⟨terms, score, none⟩
  else
    let didCross := newSide != term.side
    let overlapping := terms.find? fun t =>
      !(t.id == term.id) && t.side == newSide
        && t.hasVariable == term.hasVariable && overlapOracle t
    match overlapping with
    | some ot =>
      let effectiveCoefficient :=
        if didCross then -1 * term.coefficient else term.coefficient
      ⟨terms, score,
       some ⟨{ term with coefficient := effectiveCoefficient, side := newSide }, ot⟩⟩
    | none =>
      if didCross then
        ⟨terms.map fun t =>
           if t.id == term.id then
             { t with side := newSide, coefficient := t.coefficient * -1 }
           else t,
         score, none⟩
      else ⟨terms, score, none⟩

/-- The Cancel button of the merge modal: it only closes the modal. -/
def cancelMerge (r : DragResult) : DragResult := { r with modal := none }

/-- The validation failures of a merge submission. -/
inductive MergeError where
  | invalidNumericInput
  | wrongMergeSum
  deriving DecidableEq, Repr

/-- The outcome of a merge submission. -/
structure MergeOutcome where
  terms : List Term
  score : Int
  accepted : Bool
  error : Option MergeError
  deriving DecidableEq, Repr

/-- The replacement term built by a successful merge: the sum on
termB.side, hasVariable false when the sum is 0, else termA.hasVariable. -/
def mergedTerm (termA termB : Term) (newId : Nat) : Term :=
  let sum := termA.coefficient + termB.coefficient
  ⟨newId, sum, if sum == 0 then false else termA.hasVariable, termB.side⟩

/-- handleMergeSubmit from App.jsx.  termA and termB are the modal
snapshots; inputValue is the parseInt of the form field (none for NaN).
A NaN input returns early with an error and no score change; a correct
sum removes both source ids and appends the merged term; a wrong sum
costs 2 points and leaves terms unchanged (the deferred auto-dismiss
only rewrites the list with an identical copy). -/
def handleMergeSubmit (terms : List Term) (score : Int) (termA termB : Term)
    (inputValue : Option Int) (newId : Nat) : MergeOutcome :=
  let sum := termA.coefficient + termB.coefficient
  match inputValue with
  | none => ⟨terms, score, false, some MergeError.invalidNumericInput⟩
  | some userSum =>
    if userSum == sum then
      ⟨(terms.filter fun t => !(t.id == termA.id) && !(t.id == termB.id))
         ++ [mergedTerm termA termB newId],
       score, true, none⟩
    else
      ⟨terms, score - 2, false, some MergeError.wrongMergeSum⟩

/-- The validation failures of a division submission, as the source
words them: the divisor was wrong, or the divisor was right and the
result wrong. -/
inductive DivisionError where
  | checkDivisor
  | checkMath
  deriving DecidableEq, Repr

/-- The outcome of a division submission. -/
structure DivisionOutcome where
  terms : List Term
  score : Int
  accepted : Bool
  error : Option DivisionError
  deriving DecidableEq, Repr

/-- handleDivisionSubmit from App.jsx.  divisor and dividend are the
modal snapshot; the two inputs are parseInt results (none for NaN).  The
source accepts when userDivisor === divisor and userResult ===
dividend / divisor in JS number arithmetic: an integer userResult equals
that quotient exactly iff divisor is nonzero and userResult * divisor =
dividend (division by 0 yields Infinity or NaN, never equal to an
integer, and NaN inputs compare unequal to everything).  On acceptance
every variable term gets coefficient 1 and every constant term the
proposed result; on rejection the score drops by 2 and the error blames
the divisor first. -/
def handleDivisionSubmit (terms : List Term) (score : Int)
    (divisor dividend : Int) (divisorInput resultInput : Option Int) : DivisionOutcome :=
  match divisorInput, resultInput with
  | some uD, some uR =>
    if uD == divisor && (divisor != 0 && uR * divisor == dividend) then
      ⟨terms.map fun t => { t with coefficient := if t.hasVariable then 1 else uR },
       score, true, none⟩
    else if uD != divisor then ⟨terms, score - 2, false, some DivisionError.checkDivisor⟩
    else ⟨terms, score - 2, false, some DivisionError.checkMath⟩
  | some uD, none =>
    if uD != divisor then ⟨terms, score - 2, false, some DivisionError.checkDivisor⟩
    else ⟨terms, score - 2, false, some DivisionError.checkMath⟩
  | none, _ => ⟨terms, score - 2, false, some DivisionError.checkDivisor⟩

/-- Concrete draw outcome: difficulty 1.4 (reachable at solvedCount 6),
finalCoeff 2, answer 0, A 2, C1 0, every raw term kept unsplit. -/
def singleDraws : Draws := ⟨2, 0, 2, 0, [true, true, true, true]⟩

/-- Concrete pair of cancelling variable terms plus a constant. -/
def zeroMergeTerms : List Term :=
  [⟨0, 3, true, Side.lhs⟩, ⟨1, -3, true, Side.lhs⟩, ⟨2, 5, false, Side.rhs⟩]

/-- The two cancelling variable snapshots of zeroMergeTerms. -/
def zeroMergeA : Term := ⟨0, 3, true, Side.lhs⟩

/-- Second merge snapshot of zeroMergeTerms. -/
def zeroMergeB : Term := ⟨1, -3, true, Side.lhs⟩

/-- Concrete two-term list with both terms on the right-hand side, as
left after dragging the variable card of a division-ready state across. -/
def staleTerms : List Term := [⟨0, -2, true, Side.rhs⟩, ⟨1, 6, false, Side.rhs⟩]

/-- Concrete three-term list that is not in the division-ready shape. -/
def threeTerms : List Term :=
  [⟨0, 2, true, Side.lhs⟩, ⟨1, 3, false, Side.lhs⟩, ⟨2, 5, false, Side.rhs⟩]

/-- Concrete same-side variable pair used for drag-end examples. -/
def overlapTerms : List Term := [⟨0, 3, true, Side.lhs⟩, ⟨1, 4, true, Side.lhs⟩]

/-- The dragged card of overlapTerms. -/
def overlapDragged : Term := ⟨0, 3, true, Side.lhs⟩

lemma rawSideSum_nil (s : Side) (x : Int) : rawSideSum [] s x = 0 := rfl

lemma rawSideSum_cons (t : RawTerm) (l : List RawTerm) (s : Side) (x : Int) :
    rawSideSum (t :: l) s x
      = (if t.side = s then rawValue t x else 0) + rawSideSum l s x := by
  by_cases h : t.side = s <;>
    simp [rawSideSum, List.filter_cons, h]

lemma rawSideSum_append (l1 l2 : List RawTerm) (s : Side) (x : Int) :
    rawSideSum (l1 ++ l2) s x = rawSideSum l1 s x + rawSideSum l2 s x := by
  simp [rawSideSum, List.filter_append]

lemma rawSideSum_splitOne (keep : Bool) (t : RawTerm) (s : Side) (x : Int) :
    rawSideSum (splitOne keep t) s x = rawSideSum [t] s x := by
  unfold splitOne
  split
  · rfl
  · simp only [rawSideSum_cons, rawSideSum_nil, rawValue]
    by_cases hs : t.side = s <;> by_cases hv : t.hasVar
    · simp [hs, hv]
      ring
    · simp [hs, hv]
    · simp [hs, hv]
    · simp [hs, hv]

lemma rawSideSum_splitAll (flags : List Bool) (l : List RawTerm) (s : Side) (x : Int) :
    rawSideSum (splitAll flags l) s x = rawSideSum l s x := by
  induction l generalizing flags with
  | nil => rfl
  | cons t rest ih =>
    rw [splitAll, rawSideSum_append, rawSideSum_splitOne, rawSideSum_cons, ih,
      rawSideSum_cons, rawSideSum_nil]
    ring

lemma rawSideSum_filter_nonzero (l : List RawTerm) (s : Side) (x : Int) :
    rawSideSum (l.filter fun t => t.coeff != 0) s x = rawSideSum l s x := by
  induction l with
  | nil => rfl
  | cons t rest ih =>
    by_cases hz : t.coeff = 0
    · have hv : rawValue t x = 0 := by
        unfold rawValue
        by_cases hvar : t.hasVar <;> simp [hvar, hz]
      simp [List.filter_cons, hz, ih, rawSideSum_cons, hv]
    · simp [List.filter_cons, hz, rawSideSum_cons, ih]

lemma sideSum_cons (t : Term) (l : List Term) (s : Side) (x : Int) :
    sideSum (t :: l) s x
      = (if t.side = s then termValue t x else 0) + sideSum l s x := by
  by_cases h : t.side = s <;>
    simp [sideSum, List.filter_cons, h]

lemma sideSum_assignIds (n : Nat) (l : List RawTerm) (s : Side) (x : Int) :
    sideSum (assignIds n l) s x = rawSideSum l s x := by
  induction l generalizing n with
  | nil => rfl
  | cons t rest ih =>
    rw [assignIds, sideSum_cons, rawSideSum_cons, ih (n + 1)]
    rfl

lemma assignIds_length (n : Nat) (l : List RawTerm) :
    (assignIds n l).length = l.length := by
  induction l generalizing n with
  | nil => rfl
  | cons t rest ih => simp [assignIds, ih]

lemma assignIds_coeff (n : Nat) (l : List RawTerm) :
    ∀ t ∈ assignIds n l, ∃ r ∈ l, t.coefficient = r.coeff := by
  induction l generalizing n with
  | nil => intro t ht; cases ht
  | cons r rest ih =>
    intro t ht
    rcases List.mem_cons.mp ht with he | hm
    · exact ⟨r, List.mem_cons_self r rest, by rw [he]⟩
    · rcases ih (n + 1) t hm with ⟨r2, hr2, hco⟩
      exact ⟨r2, List.mem_cons_of_mem r hr2, hco⟩

/-- Claim C6: for every difficulty and every outcome of the random
draws, the generated term set is balanced at the chosen answer: the sum
of the left-side terms evaluated at x = answer equals the sum of the
right-side terms, including after term-splitting and zero-term
dropping. -/
theorem generateLevel_balanced (d10 : Int) (d : Draws) :
    sideSum (generateLevel d10 d) Side.lhs d.answer
      = sideSum (generateLevel d10 d) Side.rhs d.answer := by
  unfold generateLevel
  simp only [sideSum_assignIds, rawSideSum_filter_nonzero]
  split
  · rw [rawSideSum_splitAll, rawSideSum_splitAll]
    simp [rawSideSum_cons, rawSideSum_nil, rawValue]
    ring
  · simp [rawSideSum_cons, rawSideSum_nil, rawValue]
    ring

/-- Claim C7 (counterexample): at difficulty 1.4 (reachable at
solvedCount 6) the draw finalCoeff = 2, answer = 0, A = 2, C1 = 0 is
inside every generator range, yet B = A - finalCoeff = 0 and
C2 = C1 + finalCoeff * answer = 0, so after zero-term dropping the
generated equation has exactly one term, not at least 2. -/
theorem generateLevel_single_term :
    validDraws 14 singleDraws ∧ (generateLevel 14 singleDraws).length = 1 := by
  decide

/-- Claim C7 (amended): for every difficulty value and every valid
outcome of the random draws, the Equation returned by the Level
Generator contains at least 1 term (the variable term A with A ≥ 2
always survives, whole or split); at least 2 is not guaranteed. -/
theorem generateLevel_nonempty (d10 : Int) (d : Draws) (h : validDraws d10 d) :
    1 ≤ (generateLevel d10 d).length := by
  have hA : 2 ≤ d.A := h.2.2.2.1
  unfold generateLevel
  have hmem : ∃ t ∈ (if d10 > 14 then
      splitAll d.keepFlags
        [⟨d.A, true, Side.lhs⟩, ⟨d.A - d.finalCoeff, true, Side.rhs⟩,
         ⟨d.C1, false, Side.lhs⟩, ⟨d.C1 + d.finalCoeff * d.answer, false, Side.rhs⟩]
    else
      [⟨d.A, true, Side.lhs⟩, ⟨d.A - d.finalCoeff, true, Side.rhs⟩,
       ⟨d.C1, false, Side.lhs⟩, ⟨d.C1 + d.finalCoeff * d.answer, false, Side.rhs⟩]),
      t.coeff ≠ 0 := by
    split
    · have hone : ∃ t ∈ splitOne (d.keepFlags.headD true) ⟨d.A, true, Side.lhs⟩,
          t.coeff ≠ 0 := by
        unfold splitOne
        split
        · exact ⟨⟨d.A, true, Side.lhs⟩, by simp, by simp; omega⟩
        · refine ⟨⟨Int.fdiv d.A 2, true, Side.lhs⟩, by simp, ?_⟩
          have h2 : 1 ≤ Int.fdiv d.A 2 := by
            rw [Int.fdiv_eq_ediv _ (by omega)]
            omega
          simp
          omega
      rcases hone with ⟨t, htm, htz⟩
      exact ⟨t, by rw [splitAll]; exact List.mem_append_left _ htm, htz⟩
    · exact ⟨⟨d.A, true, Side.lhs⟩, by simp, by simp; omega⟩
  rcases hmem with ⟨t, htm, htz⟩
  have htf : t ∈ List.filter (fun t => t.coeff != 0)
      (if d10 > 14 then
        splitAll d.keepFlags
          [⟨d.A, true, Side.lhs⟩, ⟨d.A - d.finalCoeff, true, Side.rhs⟩,
           ⟨d.C1, false, Side.lhs⟩, ⟨d.C1 + d.finalCoeff * d.answer, false, Side.rhs⟩]
      else
        [⟨d.A, true, Side.lhs⟩, ⟨d.A - d.finalCoeff, true, Side.rhs⟩,
         ⟨d.C1, false, Side.lhs⟩, ⟨d.C1 + d.finalCoeff * d.answer, false, Side.rhs⟩]) := by
    rw [List.mem_filter]
    exact ⟨htm, by simpa using htz⟩
  rw [assignIds_length]
  have := List.length_pos.mpr (List.ne_nil_of_mem htf)
  omega

/-- Witness for generateLevel_nonempty at a concrete valid draw of
difficulty 1.0. -/
theorem generateLevel_nonempty_witness :
    validDraws 10 ⟨1, 3, 4, -2, []⟩ ∧ 1 ≤ (generateLevel 10 ⟨1, 3, 4, -2, []⟩).length :=
  ⟨by decide, generateLevel_nonempty 10 ⟨1, 3, 4, -2, []⟩ (by decide)⟩

lemma length_filter_sides (terms : List Term) :
    (terms.filter fun t => t.side == Side.lhs).length
      + (terms.filter fun t => t.side == Side.rhs).length = terms.length := by
  induction terms with
  | nil => rfl
  | cons t rest ih =>
    cases hs : t.side <;> simp [List.filter_cons, hs] <;> omega

lemma shapeOf_some_length (terms : List Term) (p : Int × Int)
    (h : shapeOf terms = some p) : terms.length = 2 := by
  have hlen := length_filter_sides terms
  unfold shapeOf at h
  split at h
  · rename_i t1 t2 h1 h2
    rw [h1, h2] at hlen
    simpa using hlen.symm
  · exact absurd h (by simp)

/-- Claim C2 (amended): run from a non-won state, the status derivation
enters won (score + 10, solvedCount + 1, canDivide cleared) exactly when
the two-term one-per-side variable/constant shape holds with variable
coefficient 1, and records divisionReady with the variable coefficient
as divisor and the constant coefficient as dividend exactly when that
shape holds with coefficient other than 1; otherwise it stays in playing
but clears a pending division-ready only when the term count differs
from 2 — with exactly 2 terms in a non-qualifying arrangement the
previous canDivide is left in place. -/
theorem statusEffect_characterization (terms : List Term) (g : GameView)
    (hg : g.gameWon = false) :
    statusEffect terms g =
      match shapeOf terms with
      | some (v, c) =>
          if v = 1 then ⟨true, g.score + 10, g.solvedCount + 1, none⟩
          else { g with canDivide := some (v, c) }
      | none =>
          if terms.length = 2 then g else { g with canDivide := none } := by
  have hpart := length_filter_sides terms
  unfold statusEffect shapeOf
  simp only [hg, Bool.false_eq_true, if_false]
  rcases hl : terms.filter (fun t => t.side == Side.lhs) with _ | ⟨t1, _ | ⟨t1b, l1⟩⟩
  · rcases hr : terms.filter (fun t => t.side == Side.rhs) with _ | ⟨t2, l2⟩ <;>
      rw [hl, hr]
  · rcases hr : terms.filter (fun t => t.side == Side.rhs) with _ | ⟨t2, _ | ⟨t2b, l2⟩⟩
    · rw [hl, hr]
    · rw [hl, hr] at hpart ⊢
      have hlen2 : terms.length = 2 := by
        simp at hpart
        omega
      by_cases hv1 : t1.hasVariable <;> by_cases hv2 : t2.hasVariable <;>
        simp [hlen2, hv1, hv2]
    · rw [hl, hr]
  · rcases hr : terms.filter (fun t => t.side == Side.rhs) with _ | ⟨t2, l2⟩ <;>
      rw [hl, hr]

/-- Claim C2 (counterexample): with exactly two terms both on the
right-hand side (as after dragging the variable card of a
division-ready equation across the centerline), the shape does not
hold, yet the derivation leaves the stale division-ready payload in
place instead of clearing it to playing. -/
theorem statusEffect_keeps_stale_canDivide :
    statusEffect staleTerms ⟨false, 0, 0, some (2, 6)⟩ = ⟨false, 0, 0, some (2, 6)⟩
    ∧ shapeOf staleTerms = none
    ∧ (statusEffect staleTerms ⟨false, 0, 0, some (2, 6)⟩).canDivide ≠ none := by
  decide

/-- Witness for statusEffect_characterization on a concrete winning
pair: x = 5 solved, score + 10, solvedCount + 1. -/
theorem statusEffect_characterization_witness :
    statusEffect [⟨0, 1, true, Side.lhs⟩, ⟨1, 5, false, Side.rhs⟩] ⟨false, 0, 0, none⟩
      = ⟨true, 10, 1, none⟩ :=
  (statusEffect_characterization [⟨0, 1, true, Side.lhs⟩, ⟨1, 5, false, Side.rhs⟩]
    ⟨false, 0, 0, none⟩ rfl).trans (by decide)


lemma find_noOverlap (terms : List Term) (term : Term) (newSide : Side) :
    (terms.find? fun t =>
      !(t.id == term.id) && t.side == newSide
        && t.hasVariable == term.hasVariable && noOverlap t) = none := by
  simp [List.find?_eq_none, noOverlap]

lemma handleDragEnd_noOverlap (terms : List Term) (score : Int) (term : Term) (dest : Side) :
    handleDragEnd terms score false term dest noOverlap =
      if dest = term.side then ⟨terms, score, none⟩
      else
        ⟨terms.map fun t =>
           if t.id == term.id then
             { t with side := dest, coefficient := t.coefficient * -1 }
           else t,
         score, none⟩ := by
  simp only [handleDragEnd, find_noOverlap]
  by_cases h : dest = term.side <;> simp [h]

/-- Claim C8: a cross event whose destination equals the current side of
the dragged term leaves the whole state unchanged; a cross to the other
side negates the coefficient of the dragged term and sets its side to
the destination (other terms untouched); crossing the same term twice
restores the original term list. -/
theorem crossMove_spec (terms : List Term) (score : Int) (term : Term) (dest : Side)
    (hside : ∀ t ∈ terms, t.id = term.id → t.side = term.side) :
    (dest = term.side →
      handleDragEnd terms score false term dest noOverlap = ⟨terms, score, none⟩)
    ∧ (dest ≠ term.side → ∀ t ∈ terms,
        (t.id = term.id →
          { t with side := dest, coefficient := t.coefficient * -1 }
            ∈ (handleDragEnd terms score false term dest noOverlap).terms)
        ∧ (t.id ≠ term.id →
          t ∈ (handleDragEnd terms score false term dest noOverlap).terms))
    ∧ (dest ≠ term.side →
        (handleDragEnd
          (handleDragEnd terms score false term dest noOverlap).terms score false
          { term with side := dest, coefficient := term.coefficient * -1 }
          term.side noOverlap).terms = terms) := by
  refine ⟨?_, ?_, ?_⟩
  · intro h
    rw [handleDragEnd_noOverlap, if_pos h]
  · intro h t ht
    rw [handleDragEnd_noOverlap, if_neg h]
    constructor
    · intro hid
      exact List.mem_map.mpr ⟨t, ht, by simp [hid]⟩
    · intro hid
      exact List.mem_map.mpr ⟨t, ht, by simp [hid]⟩
  · intro h
    have h2 : ¬ term.side
        = ({ term with side := dest, coefficient := term.coefficient * -1 } : Term).side :=
      fun he => h he.symm
    rw [handleDragEnd_noOverlap, handleDragEnd_noOverlap, if_neg h, if_neg h2]
    simp only [List.map_map]
    refine (List.map_congr_left ?_).trans (List.map_id terms)
    intro t ht
    by_cases hid : t.id = term.id
    · have hsd := hside t ht hid
      cases t
      simp_all [Function.comp]
    · cases t
      simp_all [Function.comp]

/-- Witness for crossMove_spec: dragging the 3x card of overlapTerms to
the right and back restores the original list. -/
theorem crossMove_spec_witness :
    (handleDragEnd
      (handleDragEnd overlapTerms 0 false overlapDragged Side.rhs noOverlap).terms 0 false
      { overlapDragged with side := Side.rhs, coefficient := overlapDragged.coefficient * -1 }
      overlapDragged.side noOverlap).terms = overlapTerms :=
  (crossMove_spec overlapTerms 0 overlapDragged Side.rhs
    (by intro t ht hid; fin_cases ht <;> simp_all [overlapDragged, overlapTerms])).2.2 (by decide)

lemma handleDragEnd_find (terms : List Term) (score : Int) (term : Term)
    (dest : Side) (oracle : Term → Bool) :
    handleDragEnd terms score false term dest oracle =
      match terms.find? (fun t =>
        !(t.id == term.id) && t.side == dest
          && t.hasVariable == term.hasVariable && oracle t) with
      | some ot =>
        ⟨terms, score,
         some ⟨{ term with
                  coefficient :=
                    (if dest != term.side then -1 * term.coefficient else term.coefficient),
                  side := dest }, ot⟩⟩
      | none =>
        if dest != term.side then
          ⟨terms.map fun t =>
             if t.id == term.id then
               { t with side := dest, coefficient := t.coefficient * -1 }
             else t,
           score, none⟩
        else ⟨terms, score, none⟩ := rfl

/-- Claim C10: whenever a drag-end surfaces a merge candidate, neither
the term list nor the score changes: the modal only records a snapshot
whose termA carries the dragged id and kind, the resolved side, and the
effective (sign-flipped only if it crossed) coefficient, and cancelling
the negotiation returns the state exactly as before the drag. -/
theorem dragEnd_merge_open_frame (terms : List Term) (score : Int) (term : Term)
    (dest : Side) (oracle : Term → Bool) (mm : MergeModal)
    (h : (handleDragEnd terms score false term dest oracle).modal = some mm) :
    (handleDragEnd terms score false term dest oracle).terms = terms
    ∧ (handleDragEnd terms score false term dest oracle).score = score
    ∧ mm.termA.id = term.id
    ∧ mm.termA.hasVariable = term.hasVariable
    ∧ mm.termA.side = dest
    ∧ mm.termA.coefficient
        = (if dest = term.side then term.coefficient else -1 * term.coefficient)
    ∧ cancelMerge (handleDragEnd terms score false term dest oracle)
        = ⟨terms, score, none⟩ := by
  rw [handleDragEnd_find] at h ⊢
  rcases hf : terms.find? (fun t =>
      !(t.id == term.id) && t.side == dest
        && t.hasVariable == term.hasVariable && oracle t) with _ | ot
  · rw [hf] at h
    split at h
    · rename_i heq
      exact absurd heq (by simp)
    · split at h <;> simp at h
  · rw [hf] at h ⊢
    simp only [Option.some.injEq] at h
    subst h
    refine ⟨rfl, rfl, rfl, rfl, rfl, ?_, rfl⟩
    by_cases hd : dest = term.side <;> simp [hd]

/-- Witness for dragEnd_merge_open_frame: the overlap of the two
same-side variable cards of overlapTerms opens a merge without touching
the list. -/
theorem dragEnd_merge_open_frame_witness :
    (handleDragEnd overlapTerms 0 false overlapDragged Side.lhs
        (fun _ => true)).terms = overlapTerms :=
  (dragEnd_merge_open_frame overlapTerms 0 overlapDragged Side.lhs (fun _ => true)
    ⟨⟨0, 3, true, Side.lhs⟩, ⟨1, 4, true, Side.lhs⟩⟩ (by decide)).1

/-- Claim C3: a merge submission on snapshots termA and termB is
accepted exactly when the parsed input is an integer equal to
termA.coefficient + termB.coefficient; on acceptance every term carrying
either source id is gone, membership is otherwise preserved, and exactly
the one merged term is added, sitting on termB.side with coefficient
equal to the sum and hasVariable false when the sum is 0, else
termA.hasVariable. -/
theorem handleMergeSubmit_spec (terms : List Term) (score : Int) (tA tB : Term)
    (inp : Option Int) (newId : Nat) (hA : newId ≠ tA.id) (hB : newId ≠ tB.id) :
    ((handleMergeSubmit terms score tA tB inp newId).accepted = true ↔
      inp = some (tA.coefficient + tB.coefficient))
    ∧ ((handleMergeSubmit terms score tA tB inp newId).accepted = true →
        (∀ t, t ∈ (handleMergeSubmit terms score tA tB inp newId).terms ↔
            ((t ∈ terms ∧ ¬t.id = tA.id ∧ ¬t.id = tB.id) ∨ t = mergedTerm tA tB newId))
        ∧ (∀ t ∈ (handleMergeSubmit terms score tA tB inp newId).terms,
            ¬t.id = tA.id ∧ ¬t.id = tB.id)
        ∧ mergedTerm tA tB newId ∈ (handleMergeSubmit terms score tA tB inp newId).terms
        ∧ (mergedTerm tA tB newId).side = tB.side
        ∧ (mergedTerm tA tB newId).coefficient = tA.coefficient + tB.coefficient
        ∧ (mergedTerm tA tB newId).hasVariable
            = (if tA.coefficient + tB.coefficient = 0 then false
               else tA.hasVariable)) := by
  cases inp with
  | none =>
    refine ⟨by simp [handleMergeSubmit], ?_⟩
    intro hacc
    simp [handleMergeSubmit] at hacc
  | some n =>
    by_cases hn : n = tA.coefficient + tB.coefficient
    · subst hn
      refine ⟨by simp [handleMergeSubmit], ?_⟩
      intro _
      have hmem : ∀ t,
          t ∈ (handleMergeSubmit terms score tA tB
                (some (tA.coefficient + tB.coefficient)) newId).terms ↔
            ((t ∈ terms ∧ ¬t.id = tA.id ∧ ¬t.id = tB.id)
              ∨ t = mergedTerm tA tB newId) := by
        intro t
        simp [handleMergeSubmit, List.mem_filter, and_assoc]
      refine ⟨hmem, ?_, ?_, rfl, rfl, ?_⟩
      · intro t ht
        rcases (hmem t).mp ht with ⟨-, hids⟩ | he
        · exact hids
        · rw [he]
          exact ⟨fun hc => hA hc, fun hc => hB hc⟩
      · exact (hmem (mergedTerm tA tB newId)).mpr (Or.inr rfl)
      · by_cases h0 : tA.coefficient + tB.coefficient = 0 <;>
          simp [mergedTerm, h0]
    · refine ⟨by simp [handleMergeSubmit, hn], ?_⟩
      intro hacc
      simp [handleMergeSubmit, hn] at hacc

/-- Witness for handleMergeSubmit_spec: merging 3x and 4x with input 7
is accepted. -/
theorem handleMergeSubmit_spec_witness :
    (handleMergeSubmit overlapTerms 0 (⟨0, 3, true, Side.lhs⟩ : Term)
      (⟨1, 4, true, Side.lhs⟩ : Term) (some 7) 9).accepted = true :=
  (handleMergeSubmit_spec overlapTerms 0 ⟨0, 3, true, Side.lhs⟩ ⟨1, 4, true, Side.lhs⟩
    (some 7) 9 (by decide) (by decide)).1.mpr (by decide)

/-- Claim C4: while the division modal carries divisor k and dividend m,
a submission is accepted exactly when the proposed divisor is k and the
proposed result equals m / k under exact (non-truncating) equality; on
acceptance every variable term gets coefficient 1 and every constant
term the proposed result; on rejection the terms are unchanged and the
error blames the divisor whenever the proposed divisor differs from k
(divisor-wrong first when both are wrong). -/
theorem handleDivisionSubmit_spec (terms : List Term) (score : Int) (k m : Int)
    (dIn rIn : Option Int) :
    ((handleDivisionSubmit terms score k m dIn rIn).accepted = true ↔
      (dIn = some k ∧ ∃ q : Int, rIn = some q ∧ k ≠ 0 ∧ q * k = m))
    ∧ (∀ q : Int, rIn = some q →
        (handleDivisionSubmit terms score k m dIn rIn).accepted = true →
        (handleDivisionSubmit terms score k m dIn rIn).terms
          = terms.map fun t => { t with coefficient := if t.hasVariable then 1 else q })
    ∧ ((handleDivisionSubmit terms score k m dIn rIn).accepted = false →
        (handleDivisionSubmit terms score k m dIn rIn).terms = terms)
    ∧ ((handleDivisionSubmit terms score k m dIn rIn).accepted = false →
        ¬dIn = some k →
        (handleDivisionSubmit terms score k m dIn rIn).error
          = some DivisionError.checkDivisor) := by
  cases dIn with
  | none =>
    cases rIn with
    | none => simp [handleDivisionSubmit]
    | some uR => simp [handleDivisionSubmit]
  | some uD =>
    cases rIn with
    | none =>
      by_cases hd : uD = k <;> simp [handleDivisionSubmit, hd]
    | some uR =>
      by_cases hd : uD = k
      · by_cases hk : k = 0
        · simp [handleDivisionSubmit, hd, hk]
        · by_cases hr : uR * k = m
          · simp [handleDivisionSubmit, hd, hk, hr]
          · simp [handleDivisionSubmit, hd, hk, hr]
      · simp [handleDivisionSubmit, hd]

/-- Witness for handleDivisionSubmit_spec: dividing 2x = 6 by 2 with
result 3 is accepted. -/
theorem handleDivisionSubmit_spec_witness :
    (handleDivisionSubmit staleTerms 0 2 6 (some 2) (some 3)).accepted = true :=
  (handleDivisionSubmit_spec staleTerms 0 2 6 (some 2) (some 3)).1.mpr
    ⟨rfl, 3, rfl, by decide, by decide⟩

/-- Claim C5 (amended): every rejected merge submission whose input
parsed to an integer, and every rejected division submission, decreases
the score by exactly 2 and leaves the terms unchanged; a merge
submission with non-numeric input is rejected with the score and the
terms both unchanged. -/
theorem score_penalty_spec :
    (∀ (terms : List Term) (score : Int) (tA tB : Term) (n : Int) (newId : Nat),
      (handleMergeSubmit terms score tA tB (some n) newId).accepted = false →
        (handleMergeSubmit terms score tA tB (some n) newId).score = score - 2
        ∧ (handleMergeSubmit terms score tA tB (some n) newId).terms = terms)
    ∧ (∀ (terms : List Term) (score k m : Int) (dIn rIn : Option Int),
      (handleDivisionSubmit terms score k m dIn rIn).accepted = false →
        (handleDivisionSubmit terms score k m dIn rIn).score = score - 2
        ∧ (handleDivisionSubmit terms score k m dIn rIn).terms = terms)
    ∧ (∀ (terms : List Term) (score : Int) (tA tB : Term) (newId : Nat),
      handleMergeSubmit terms score tA tB none newId
        = ⟨terms, score, false, some MergeError.invalidNumericInput⟩) := by
  refine ⟨?_, ?_, ?_⟩
  · intro terms score tA tB n newId h
    by_cases hn : n = tA.coefficient + tB.coefficient
    · simp [handleMergeSubmit, hn] at h
    · simp [handleMergeSubmit, hn]
  · intro terms score k m dIn rIn h
    cases dIn with
    | none => exact ⟨rfl, rfl⟩
    | some uD =>
      cases rIn with
      | none =>
        by_cases hd : uD = k <;> simp [handleDivisionSubmit, hd]
      | some uR =>
        by_cases hacc : (uD == k && (k != 0 && uR * k == m)) = true
        · simp [handleDivisionSubmit, hacc] at h
        · simp only [handleDivisionSubmit, hacc, Bool.false_eq_true, if_false]
          split <;> exact ⟨rfl, rfl⟩
  · intro terms score tA tB newId
    rfl

/-- Claim C5 (counterexample): a merge submission rejected for
non-numeric input (the InvalidNumericInput case) leaves the score
unchanged, not decreased by 2. -/
theorem invalid_merge_input_no_penalty :
    (handleMergeSubmit zeroMergeTerms 0 zeroMergeA zeroMergeB none 9).accepted = false
    ∧ (handleMergeSubmit zeroMergeTerms 0 zeroMergeA zeroMergeB none 9).score = 0
    ∧ ¬(handleMergeSubmit zeroMergeTerms 0 zeroMergeA zeroMergeB none 9).score = 0 - 2
    ∧ (handleMergeSubmit zeroMergeTerms 0 zeroMergeA zeroMergeB none 9).terms
        = zeroMergeTerms := by
  decide

/-- Witness for score_penalty_spec: a wrong merge sum costs exactly 2
points and keeps the list. -/
theorem score_penalty_spec_witness :
    (handleMergeSubmit zeroMergeTerms 0 zeroMergeA zeroMergeB (some 99) 9).score = 0 - 2
    ∧ (handleMergeSubmit zeroMergeTerms 0 zeroMergeA zeroMergeB (some 99) 9).terms
        = zeroMergeTerms :=
  score_penalty_spec.1 zeroMergeTerms 0 zeroMergeA zeroMergeB 99 9 (by decide)

/-- Claim C1 (amended): the Level Generator never emits a
zero-coefficient term, and a drag-end (cross or merge negotiation), an
accepted merge whose sum is nonzero, and an accepted division with a
nonzero proposed result all preserve freedom from zero coefficients; a
merge whose sum is 0, however, persists a zero-coefficient constant term
(see the counterexample). -/
theorem zero_pruning_outside_zero_merge :
    (∀ (d10 : Int) (d : Draws), noZero (generateLevel d10 d))
    ∧ (∀ (terms : List Term) (score : Int) (gw : Bool) (term : Term) (dest : Side)
        (oracle : Term → Bool), noZero terms →
        noZero ((handleDragEnd terms score gw term dest oracle).terms))
    ∧ (∀ (terms : List Term) (score : Int) (tA tB : Term) (inp : Option Int)
        (newId : Nat), noZero terms →
        ¬tA.coefficient + tB.coefficient = 0 →
        noZero ((handleMergeSubmit terms score tA tB inp newId).terms))
    ∧ (∀ (terms : List Term) (score k m : Int) (dIn : Option Int) (q : Int),
        noZero terms → ¬q = 0 →
        noZero ((handleDivisionSubmit terms score k m dIn (some q)).terms)) := by
  refine ⟨?_, ?_, ?_, ?_⟩
  · intro d10 d t ht
    unfold generateLevel at ht
    rcases assignIds_coeff 0 _ t ht with ⟨r, hr, he⟩
    have hnz : r.coeff ≠ 0 := by simpa using (List.mem_filter.mp hr).2
    rw [he]
    exact hnz
  · intro terms score gw term dest oracle hz t ht
    cases gw with
    | true => exact hz t ht
    | false =>
      rw [handleDragEnd_find] at ht
      rcases hf : terms.find? (fun t =>
          !(t.id == term.id) && t.side == dest
            && t.hasVariable == term.hasVariable && oracle t) with _ | ot
      · rw [hf] at ht
        split at ht
        · rename_i heq
          exact absurd heq (by simp)
        · split at ht
          · rcases List.mem_map.mp ht with ⟨u, hu, he⟩
            have hnz := hz u hu
            by_cases hid : (u.id == term.id) = true <;>
              rw [← he] <;> simp [hid] <;> exact hnz
          · exact hz t ht
      · rw [hf] at ht
        split at ht
        · exact hz t ht
        · rename_i heq
          exact absurd heq (by simp)
  · intro terms score tA tB inp newId hz hsum t ht
    cases inp with
    | none => exact hz t ht
    | some n =>
      by_cases hn : n = tA.coefficient + tB.coefficient
      · simp [handleMergeSubmit, hn, List.mem_filter] at ht
        rcases ht with ⟨hmem, -⟩ | he
        · exact hz t hmem
        · rw [he]
          exact hsum
      · simp only [handleMergeSubmit] at ht
        rw [if_neg (by simpa using hn)] at ht
        exact hz t ht
  · intro terms score k m dIn q hz hq t ht
    cases dIn with
    | none => exact hz t ht
    | some uD =>
      by_cases hacc : (uD == k && (k != 0 && q * k == m)) = true
      · simp [handleDivisionSubmit, hacc] at ht
        rcases ht with ⟨u, hu, he⟩
        rw [← he]
        by_cases hv : u.hasVariable <;> simp [hv]
        · exact hq
      · simp only [handleDivisionSubmit, hacc, Bool.false_eq_true, if_false] at ht
        split at ht <;> exact hz t ht

/-- Claim C1 (counterexample): merging the cancelling pair 3x and -3x
with the correct sum 0 is accepted and leaves a term with coefficient 0
in the live set, as a constant, immediately after the mutation. -/
theorem mergeZero_persists_zero_term :
    (handleMergeSubmit zeroMergeTerms 0 zeroMergeA zeroMergeB (some 0) 9).accepted = true
    ∧ ∃ t ∈ (handleMergeSubmit zeroMergeTerms 0 zeroMergeA zeroMergeB (some 0) 9).terms,
        t.coefficient = 0 := by
  decide

/-- Witness for zero_pruning_outside_zero_merge: an accepted nonzero-sum
merge keeps the live set free of zero coefficients. -/
theorem zero_pruning_outside_zero_merge_witness :
    noZero ((handleMergeSubmit overlapTerms 0 (⟨0, 3, true, Side.lhs⟩ : Term)
      (⟨1, 4, true, Side.lhs⟩ : Term) (some 7) 9).terms) :=
  zero_pruning_outside_zero_merge.2.2.1 overlapTerms 0 ⟨0, 3, true, Side.lhs⟩
    ⟨1, 4, true, Side.lhs⟩ (some 7) 9 (by decide) (by decide)

/-- Claim C9 (amended): merge and division submissions are validated
against the modal-cached snapshots (termA, termB, divisor, dividend) and
the submitted inputs only — acceptance is independent of the live term
list, so a stale snapshot can commit a transformation that is illegal
for the live state (see the counterexample). -/
theorem submit_uses_cached_snapshots :
    (∀ (terms1 terms2 : List Term) (score : Int) (tA tB : Term) (inp : Option Int)
        (newId : Nat),
      (handleMergeSubmit terms1 score tA tB inp newId).accepted
        = (handleMergeSubmit terms2 score tA tB inp newId).accepted)
    ∧ (∀ (terms1 terms2 : List Term) (score k m : Int) (dIn rIn : Option Int),
      (handleDivisionSubmit terms1 score k m dIn rIn).accepted
        = (handleDivisionSubmit terms2 score k m dIn rIn).accepted) := by
  constructor
  · intro terms1 terms2 score tA tB inp newId
    cases inp with
    | none => rfl
    | some n =>
      by_cases hn : (n == tA.coefficient + tB.coefficient) = true <;>
        simp [handleMergeSubmit, hn]
  · intro terms1 terms2 score k m dIn rIn
    cases dIn with
    | none => rfl
    | some uD =>
      cases rIn with
      | none =>
        by_cases hd : (uD != k) = true <;> simp [handleDivisionSubmit, hd]
      | some uR =>
        by_cases hacc : (uD == k && (k != 0 && uR * k == m)) = true
        · simp [handleDivisionSubmit, hacc]
        · simp only [handleDivisionSubmit, hacc, Bool.false_eq_true, if_false]
          split <;> rfl

/-- Claim C9 (counterexample): with stale modal data divisor 2 and
dividend 6, a division submission is accepted and rewrites the live
list even though the live three-term state is not division-ready. -/
theorem division_commits_on_stale_modal :
    (handleDivisionSubmit threeTerms 0 2 6 (some 2) (some 3)).accepted = true
    ∧ shapeOf threeTerms = none
    ∧ ¬(handleDivisionSubmit threeTerms 0 2 6 (some 2) (some 3)).terms = threeTerms := by
  decide

end SwipeEq
